import Mathlib

/-!
Shallow embedding of the core of `src/main.ts` (x-dl): candidate-URL
classification, quality ranking/selection, the streaming-download progress
loop, the ffmpeg progress parser, and the download/transcode dispatch.

Strings are modelled as Lean `String`; the JavaScript string operations
`includes`, `endsWith` and the two regexes used by the program are embedded
as executable functions over `List Char`.  JavaScript `Set<string>` is
modelled as an insertion-ordered duplicate-free `List String`
(`Array.from(set)[0]` is the first inserted element).  JavaScript numbers
are modelled as `Nat` where the source only ever holds nonnegative integers
(byte counts, scores, millisecond timestamps) and as `ℚ` where the source
performs divisions (speeds, ratios, seconds); the decimal literals involved
(`0.01`, `H:MM:SS.ss` tokens) are exactly representable.
-/

namespace XDl

/-- JS `pat` is a prefix of `s`, over char lists. -/
def isPrefixL : List Char → List Char → Bool
  | [], _ => true
  | _ :: _, [] => false
  | a :: as, b :: bs => a == b && isPrefixL as bs

/-- JS `String.prototype.includes`: `pat` occurs contiguously in `s`. -/
def hasInfixL (pat : List Char) : List Char → Bool
  | [] => isPrefixL pat []
  | c :: rest => isPrefixL pat (c :: rest) || hasInfixL pat rest

/-- JS `url.includes(pat)`. -/
def strIncludes (s pat : String) : Bool := hasInfixL pat.data s.data

/-- JS `url.endsWith(pat)`. -/
def strEndsWith (s pat : String) : Bool := isPrefixL pat.data.reverse s.data.reverse

/-- Maximal leading run of decimal digits, and the rest. -/
def splitDigits : List Char → List Char × List Char
  | [] => ([], [])
  | c :: cs =>
    if c.isDigit then
      let (d, r) := splitDigits cs
      (c :: d, r)
    else ([], c :: cs)

/-- Decimal value of a digit list (JS `parseInt(s, 10)` on an all-digit string). -/
def natOfDigits (l : List Char) : Nat :=
  l.foldl (fun acc c => acc * 10 + (c.toNat - '0'.toNat)) 0

/-- The regex `x-bit-rate=(\d+)` of `getQualityScore`: leftmost occurrence of
the literal `x-bit-rate=` immediately followed by at least one digit; the
captured value is the maximal digit run, read as a decimal number. -/
def findBitrate : List Char → Option Nat
  | [] => none
  | c :: rest =>
    if isPrefixL "x-bit-rate=".data (c :: rest) then
      let ds := (splitDigits ((c :: rest).drop "x-bit-rate=".data.length)).1
      if ds.isEmpty then findBitrate rest else some (natOfDigits ds)
    else findBitrate rest

/-- `getQualityScore` from `src/main.ts` (identical in `tryFastVideoDownload`
and `downloadXVideo`): resolution tokens map to a fixed scale, otherwise an
explicit `x-bit-rate` parameter, otherwise the URL length.  JS string length
and Lean `String.length` agree on the ASCII URLs involved. -/
def getQualityScore (url : String) : Nat :=
  if strIncludes url "1280x720" || strIncludes url "720p" then 700
  else if strIncludes url "852x480" || strIncludes url "848x480" ||
      strIncludes url "480p" then 500
  else if strIncludes url "640x360" || strIncludes url "360p" then 300
  else if strIncludes url "320x180" || strIncludes url "240p" ||
      strIncludes url "180p" then 100
  else match findBitrate url.data with
    | some n => n
    | none => url.length

/-- `mp4Urls.filter((url) => !url.endsWith(".m4s"))` — drop segmented files. -/
def segFilter (l : List String) : List String :=
  l.filter (fun u => !(strEndsWith u ".m4s"))

/-- Stable descending insertion by score (ties keep the earlier element
first), modelling JS `sort((a, b) => getQualityScore(b) - getQualityScore(a))`,
which is a stable sort producing a score-descending order. -/
def insertDesc (score : String → Nat) (x : String) : List String → List String
  | [] => [x]
  | y :: ys => if score y ≤ score x then x :: y :: ys else y :: insertDesc score x ys

/-- Stable sort, descending by score. -/
def sortByScoreDesc (score : String → Nat) : List String → List String
  | [] => []
  | x :: xs => insertDesc score x (sortByScoreDesc score xs)

/-- The tier-indexing chain applied to `sortedUrls` (`src/main.ts` lines
461-483 and 1185-1207; the two copies are identical up to the quality
variable's name).  The source runs it only with a non-empty list; `getD`
with default `""` stands for the JS indexing. -/
def selectFromSorted (quality : String) (sortedUrls : List String) : String :=
  if quality = "lowest" ∧ sortedUrls.length > 0 then
    sortedUrls.getD (sortedUrls.length - 1) ""
  else if quality = "low" ∧ sortedUrls.length > 1 then
    sortedUrls.getD (max 0 (sortedUrls.length - 2)) ""
  else if quality = "medium" ∧ sortedUrls.length > 2 then
    sortedUrls.getD (sortedUrls.length / 2) ""
  else if quality = "high" ∧ sortedUrls.length > 1 then
    sortedUrls.getD (min 1 (sortedUrls.length - 1)) ""
  else
    sortedUrls.getD 0 ""

/-- Sort the surviving direct-file candidates and index by tier. -/
def pickMp4 (quality : String) (fullMp4s : List String) : String :=
  selectFromSorted quality (sortByScoreDesc getQualityScore fullMp4s)

/-- The Candidate Registry `mediaUrls` (four JS `Set<string>` buckets),
modelled as insertion-ordered duplicate-free lists. -/
structure MediaUrls where
  m3u8Playlists : List String
  mp4Files : List String
  videoUrls : List String
  audioUrls : List String
  deriving Repr, DecidableEq

/-- JS `Set.prototype.add`: a no-op on an already-present element, otherwise
append (iteration order of a JS `Set` is insertion order). -/
def addUrl (l : List String) (u : String) : List String :=
  if u ∈ l then l else l ++ [u]

def emptyMedia : MediaUrls := ⟨[], [], [], []⟩

/-- A JSON value, for the bodies deep-scanned by `extractVideoUrls`. -/
inductive Json where
  | null
  | bool (b : Bool)
  | num (q : ℚ)
  | str (s : String)
  | arr (elems : List Json)
  | obj (fields : List (String × Json))

/-- JS property access `o[key]` on an object literal (keys are unique in the
JSON bodies the program receives). -/
def jField : List (String × Json) → String → Option Json
  | [], _ => none
  | (k, v) :: rest, key => if k = key then some v else jField rest key

/-- Classification of one `variant.url` inside `video_info.variants`
(`src/main.ts` lines 1368-1377 and 1383-1397): `.m3u8` checked first. -/
def classifyVariantUrl (m : MediaUrls) (u : String) : MediaUrls :=
  if strIncludes u ".m3u8" then {m with m3u8Playlists := addUrl m.m3u8Playlists u}
  else if strIncludes u ".mp4" then {m with mp4Files := addUrl m.mp4Files u}
  else m

/-- The loop over a `variants` array.  The source assumes each variant is an
object whose `url` is a string; a variant of any other shape contributes
nothing (in the source such a shape would raise inside the caller's
swallowed-error handler, a path no theorem below exercises). -/
def scanVariantList (m : MediaUrls) : List Json → MediaUrls
  | [] => m
  | v :: rest =>
    let m1 := match v with
      | .obj fs => match jField fs "url" with
        | some (.str u) => classifyVariantUrl m u
        | _ => m
      | _ => m
    scanVariantList m1 rest

/-- `data.video_info?.variants` walk (lines 1367-1378). -/
def scanVideoInfo (data : Json) (m : MediaUrls) : MediaUrls :=
  match data with
  | .obj fs => match jField fs "video_info" with
    | some (.obj vfs) => match jField vfs "variants" with
      | some (.arr vs) => scanVariantList m vs
      | _ => m
    | _ => m
  | _ => m

/-- `data.extended_entities?.media` walk (lines 1381-1399). -/
def scanExtEntities (data : Json) (m : MediaUrls) : MediaUrls :=
  match data with
  | .obj fs => match jField fs "extended_entities" with
    | some (.obj efs) =>
      match jField efs "media" with
      | some (.arr ms) => ms.foldl (fun acc item => scanVideoInfo item acc) m
      | _ => m
    | _ => m
  | _ => m

/-- The generic string-property classification (lines 1402-1420): note the
source tests `.mp4` BEFORE `.m3u8` here, unlike every other classification
site. -/
def classifyStringProp (m : MediaUrls) (value : String) : MediaUrls :=
  if (strIncludes value "video.twimg.com" || strIncludes value "amp.twimg.com")
      && (strIncludes value ".mp4" || strIncludes value ".m3u8") then
    if strIncludes value ".mp4" then {m with mp4Files := addUrl m.mp4Files value}
    else if strIncludes value ".m3u8" then
      {m with m3u8Playlists := addUrl m.m3u8Playlists value}
    else m
  else m

/-- The `for (const key in data)` pass that classifies every string-valued
own property (for arrays: every string element). -/
def scanStringValues (m : MediaUrls) : List Json → MediaUrls
  | [] => m
  | .str v :: rest => scanStringValues (classifyStringProp m v) rest
  | _ :: rest => scanStringValues m rest

mutual

/-- `extractVideoUrls(data, mediaUrls)` (`src/main.ts` lines 1363-1432):
variant walks, then the string-property pass, then recursion into every
child value.  Primitives and `null` return the registry unchanged (the
source's early `typeof` return). -/
def extractVideoUrls (data : Json) (m : MediaUrls) : MediaUrls :=
  match data with
  | .obj fields =>
    let m1 := scanVideoInfo (.obj fields) m
    let m2 := scanExtEntities (.obj fields) m1
    let m3 := scanStringValues m2 (fields.map Prod.snd)
    extractFieldChildren fields m3
  | .arr elems =>
    let m3 := scanStringValues m elems
    extractElemChildren elems m3
  | _ => m

/-- Recursion over an object's property values. -/
def extractFieldChildren (l : List (String × Json)) (m : MediaUrls) : MediaUrls :=
  match l with
  | [] => m
  | (_, j) :: rest => extractFieldChildren rest (extractVideoUrls j m)

/-- Recursion over an array's elements. -/
def extractElemChildren (l : List Json) (m : MediaUrls) : MediaUrls :=
  match l with
  | [] => m
  | j :: rest => extractElemChildren rest (extractVideoUrls j m)

end

/-- The `page.on("response", ...)` handler shared verbatim by
`tryFastVideoDownload` (lines 307-356) and `downloadXVideo` (lines 944-992):
direct `.m3u8`/`.mp4` classification, then the API-response branch that
either records a direct video URL or deep-scans a JSON body.  `body = none`
models a body that is not parseable JSON (the error is swallowed). -/
def handleResponse (m : MediaUrls) (url contentType : String) (body : Option Json) :
    MediaUrls :=
  let m1 :=
    if strIncludes url ".m3u8" || strIncludes contentType "application/x-mpegURL" then
      let ma := {m with m3u8Playlists := addUrl m.m3u8Playlists url}
      if strIncludes url "video" then {ma with videoUrls := addUrl ma.videoUrls url}
      else if strIncludes url "audio" then {ma with audioUrls := addUrl ma.audioUrls url}
      else ma
    else if strIncludes url ".mp4" || strIncludes contentType "video/mp4" then
      {m with mp4Files := addUrl m.mp4Files url}
    else m
  if (strIncludes url "api.twitter.com" || strIncludes url "api.x.com" ||
      strIncludes url "video.twimg" || strIncludes url "ton/tweet/")
      && (strIncludes contentType "application/json" || strIncludes contentType "video" ||
        contentType == "") then
    if strIncludes contentType "video" || contentType == "" then
      if strIncludes url ".mp4" then {m1 with mp4Files := addUrl m1.mp4Files url} else m1
    else
      match body with
      | some data => extractVideoUrls data m1
      | none => m1
  else m1

/-- Video/audio selection of `downloadXVideo` (lines 1142-1231): direct files
first (with the `.m4s` filter), a segmented-only direct set falls back to the
first manifest; with no direct files at all, tagged-video first, then any
manifest.  The audio URL is paired unconditionally from the tagged-audio set.
The og:video meta-tag fallback that runs afterwards when the result is empty
is outside the ranker. -/
def selectFull (quality : String) (m : MediaUrls) : String × String :=
  let videoUrl :=
    if m.mp4Files.length > 0 then
      let fullMp4s := segFilter m.mp4Files
      if fullMp4s.length > 0 then pickMp4 quality fullMp4s
      else if m.m3u8Playlists.length > 0 then m.m3u8Playlists.getD 0 ""
      else ""
    else if m.videoUrls.length > 0 then m.videoUrls.getD 0 ""
    else if m.m3u8Playlists.length > 0 then m.m3u8Playlists.getD 0 ""
    else ""
  let audioUrl := if m.audioUrls.length > 0 then m.audioUrls.getD 0 "" else ""
  (videoUrl, audioUrl)

/-- Video/audio selection of `tryFastVideoDownload` (lines 418-505): same
direct-file branch, but a still-empty video URL falls into a single manifest
block that prefers tagged-video URLs and pairs the audio URL only there. -/
def selectFast (quality : String) (m : MediaUrls) : String × String :=
  let videoUrl0 :=
    if m.mp4Files.length > 0 then
      let fullMp4s := segFilter m.mp4Files
      if fullMp4s.length > 0 then pickMp4 quality fullMp4s else ""
    else ""
  if videoUrl0 = "" ∧ (m.videoUrls.length > 0 ∨ m.m3u8Playlists.length > 0) then
    let v := if m.videoUrls.length > 0 then m.videoUrls.getD 0 ""
      else m.m3u8Playlists.getD 0 ""
    let a := if m.audioUrls.length > 0 then m.audioUrls.getD 0 "" else ""
    (v, a)
  else (videoUrl0, "")

/-- `calculateSpeed` (lines 77-82), as the bytes-per-second value that the
source renders through `formatBytes`. -/
def calculateSpeedBps (bytesPart elapsedMs : Nat) : ℚ :=
  if elapsedMs = 0 then 0 else (bytesPart : ℚ) / (elapsedMs : ℚ) * 1000

/-- Mutable state of the `downloadFile` receive loop (lines 652-656).
`speedBps` is the numeric value behind the `currentSpeed` display string. -/
structure DlState where
  bytesReceived : Nat
  lastSpeedUpdate : Nat
  lastBytesForSpeed : Nat
  speedBps : ℚ
  deriving Repr, DecidableEq

/-- One progress-sink update of `downloadFile`.  `indeterminate` is the
branch that shows transferred bytes instead of a percentage; `etaSecs = none`
is the `"calculating..."` display (`formatTime` also renders a negative
value as `"calculating..."`; the raw value is kept here). -/
structure ProgressUpd where
  indeterminate : Bool
  ratioVal : ℚ
  speedBps : ℚ
  etaSecs : Option ℚ
  deriving Repr, DecidableEq

/-- One iteration of the `downloadFile` receive loop (lines 658-705) on a
chunk of `len` bytes read at wall-clock `now` (milliseconds, non-decreasing
along a run, so JS subtraction is `Nat` subtraction). -/
def dlStep (totalBytes startTime : Nat) (s : DlState) (len now : Nat) :
    DlState × ProgressUpd :=
  let bytesReceived := s.bytesReceived + len
  let elapsedSeconds : ℚ := ((now - startTime : Nat) : ℚ) / 1000
  let speedRefresh := now - s.lastSpeedUpdate > 500
  let speedBps : ℚ :=
    if speedRefresh then
      calculateSpeedBps (bytesReceived - s.lastBytesForSpeed) (now - s.lastSpeedUpdate)
    else s.speedBps
  let etaSecs : Option ℚ :=
    if totalBytes > 0 ∧ bytesReceived > 0 ∧ elapsedSeconds > 1 then
      let bytesPerSecond : ℚ := (bytesReceived : ℚ) / elapsedSeconds
      if bytesPerSecond > 0 then
        some (((totalBytes : ℚ) - (bytesReceived : ℚ)) / bytesPerSecond)
      else none
    else none
  let s' : DlState :=
    { bytesReceived := bytesReceived
      lastSpeedUpdate := if speedRefresh then now else s.lastSpeedUpdate
      lastBytesForSpeed := if speedRefresh then bytesReceived else s.lastBytesForSpeed
      speedBps := speedBps }
  let upd : ProgressUpd :=
    if totalBytes > 0 then
      { indeterminate := false
        ratioVal := (bytesReceived : ℚ) / (totalBytes : ℚ)
        speedBps := speedBps
        etaSecs := etaSecs }
    else
      { indeterminate := true, ratioVal := 1/2, speedBps := speedBps, etaSecs := none }
  (s', upd)

/-- Run the receive loop over the whole chunk sequence, collecting every
progress update (chunk writes are sequential and order-preserving). -/
def runChunks (totalBytes startTime : Nat) (s : DlState) :
    List (Nat × Nat) → DlState × List ProgressUpd
  | [] => (s, [])
  | (len, now) :: rest =>
    let (s1, u) := dlStep totalBytes startTime s len now
    let (s2, us) := runChunks totalBytes startTime s1 rest
    (s2, u :: us)

/-- Outcome of the HEAD size probe: `none` models a thrown/failed request,
`some r` a response with its `ok` flag and parsed `content-length`. -/
structure HeadResp where
  ok : Bool
  contentLength : Option Nat
  deriving Repr, DecidableEq

/-- The GET response: status flag, parsed `content-length`, and the body as
a chunk sequence `(length, arrival time)`, `none` when the body is null. -/
structure GetResp where
  ok : Bool
  contentLength : Option Nat
  body : Option (List (Nat × Nat))
  deriving Repr, DecidableEq

inductive DlError where
  | httpStatus
  | noBody
  deriving Repr, DecidableEq

/-- `downloadFile` (lines 585-719) over the abstract HTTP world: the HEAD
probe feeds `totalBytes` only when it succeeded; a non-ok GET status or a
null body throws; otherwise the loop runs and the final byte count is
reported by `progress.finish`. -/
def downloadFileModel (head : Option HeadResp) (get : GetResp) (startTime : Nat) :
    Except DlError (Nat × List ProgressUpd) :=
  let totalBytes0 : Nat :=
    match head with
    | some r => if r.ok then r.contentLength.getD 0 else 0
    | none => 0
  if get.ok = false then .error .httpStatus
  else
    let totalBytes := if totalBytes0 = 0 then get.contentLength.getD 0 else totalBytes0
    match get.body with
    | none => .error .noBody
    | some chunks =>
      let init : DlState :=
        { bytesReceived := 0, lastSpeedUpdate := startTime
          lastBytesForSpeed := 0, speedBps := 0 }
      let (fin, upds) := runChunks totalBytes startTime init chunks
      .ok (fin.bytesReceived, upds)

/-- The capture groups of an `H:MM:SS.ss` clock token: hours, minutes, the
integer and fractional digits of the seconds group, and the fractional digit
count (so `parseFloat` of the third capture is exact). -/
structure ClockTok where
  hrs : Nat
  mins : Nat
  secs : Nat
  frac : Nat
  fracLen : Nat
  deriving Repr, DecidableEq

/-- `parseInt` of the first two captures and `parseFloat` of the third,
combined into seconds (`hours * 3600 + minutes * 60 + seconds`). -/
def clockSecs (c : ClockTok) : ℚ :=
  (c.hrs : ℚ) * 3600 + (c.mins : ℚ) * 60 + (c.secs : ℚ) + (c.frac : ℚ) / (10 : ℚ) ^ c.fracLen

/-- Match of the clock group `(\d+):(\d+):(\d+\.\d+)` at the very start of
`s`.  The digit runs are maximal, as with a greedy `\d+` followed by a
forced non-digit literal. -/
def matchClockAt (s : List Char) : Option ClockTok :=
  let (d1, r1) := splitDigits s
  if d1.isEmpty then none else
  match r1 with
  | ':' :: r2 =>
    let (d2, r3) := splitDigits r2
    if d2.isEmpty then none else
    match r3 with
    | ':' :: r4 =>
      let (d3, r5) := splitDigits r4
      if d3.isEmpty then none else
      match r5 with
      | '.' :: r6 =>
        let (d4, _) := splitDigits r6
        if d4.isEmpty then none else
          some ⟨natOfDigits d1, natOfDigits d2, natOfDigits d3,
            natOfDigits d4, d4.length⟩
      | _ => none
    | _ => none
  | _ => none

/-- Leftmost occurrence of the literal `pre` followed by a clock group:
the regexes `Duration: (\d+):(\d+):(\d+\.\d+)` and
`time=(\d+):(\d+):(\d+\.\d+)` of `executeFFmpeg`. -/
def findClock (pre : List Char) : List Char → Option ClockTok
  | [] => none
  | c :: rest =>
    match (if isPrefixL pre (c :: rest) then matchClockAt ((c :: rest).drop pre.length)
      else none) with
    | some v => some v
    | none => findClock pre rest

/-- `text.match(/Duration: (\d+):(\d+):(\d+\.\d+)/)`. -/
def parseDuration (text : String) : Option ClockTok :=
  findClock "Duration: ".data text.data

/-- `text.match(/time=(\d+):(\d+):(\d+\.\d+)/)`. -/
def parseTimeTok (text : String) : Option ClockTok :=
  findClock "time=".data text.data

/-- The duration match converted to seconds (lines 774-777). -/
def parseDurationSecs (text : String) : Option ℚ :=
  (parseDuration text).map clockSecs

/-- The time match converted to seconds (lines 784-787). -/
def parseTimeSecs (text : String) : Option ℚ :=
  (parseTimeTok text).map clockSecs

/-- `\S` of the JS regexes: a non-whitespace character (the exotic Unicode
spaces also excluded by JS never occur in ffmpeg diagnostics). -/
def nonspaceRun : List Char → List Char
  | [] => []
  | c :: cs => if c.isWhitespace then [] else c :: nonspaceRun cs

/-- Index (from the start) just after the last `x` in `l`, if any. -/
def lastXEnd (l : List Char) : Option Nat :=
  match l with
  | [] => none
  | c :: cs =>
    match lastXEnd cs with
    | some n => some (n + 1)
    | none => if c = 'x' then some 1 else none

/-- `text.match(/speed=(\S+)x/)`: at the leftmost viable `speed=`, the
greedy `\S+` backtracks to the last `x` of the maximal non-space run, and
the capture (everything before that `x`) must be non-empty. -/
def matchSpeedAt (s : List Char) : Option (List Char) :=
  let run := nonspaceRun s
  match lastXEnd run with
  | some n => if n ≥ 2 then some (run.take (n - 1)) else none
  | none => none

def findSpeed (pre : List Char) : List Char → Option (List Char)
  | [] => none
  | c :: rest =>
    match (if isPrefixL pre (c :: rest) then matchSpeedAt ((c :: rest).drop pre.length)
      else none) with
    | some v => some v
    | none => findSpeed pre rest

def parseSpeedTok (text : String) : Option (List Char) :=
  findSpeed "speed=".data text.data

/-- Progress state of `executeFFmpeg` (lines 748-753): duration and current
position in seconds, the displayed speed token, the progress ratio, and the
display throttle stamp. -/
structure FfState where
  duration : ℚ
  currentTime : ℚ
  speedTok : String
  progressRatio : ℚ
  lastProgressUpdate : Nat
  deriving Repr, DecidableEq

/-- Initial `executeFFmpeg` progress state (`lastProgressUpdate = Date.now()`
at spawn). -/
def ffInit (startTime : Nat) : FfState :=
  { duration := 0, currentTime := 0, speedTok := "0x", progressRatio := 0
    lastProgressUpdate := startTime }

/-- One stderr read of `executeFFmpeg` (lines 762-819): capture the duration
while it is still zero, overwrite the position with any parsed `time=` token,
recompute the ratio when the duration is known, update the speed token, and
— at most once per 100 ms — drive the display (with an unknown duration the
displayed ratio is the cyclic `(r + 0.01) % 1` spinner; `Int.fract` is the
JS `%` for these nonnegative values). -/
def ffStep (s : FfState) (text : String) (now : Nat) : FfState :=
  let duration :=
    if s.duration = 0 then (parseDurationSecs text).getD s.duration else s.duration
  let tOpt := parseTimeSecs text
  let currentTime := tOpt.getD s.currentTime
  let ratio1 :=
    match tOpt with
    | some _ => if duration > 0 then min (currentTime / duration) 1 else s.progressRatio
    | none => s.progressRatio
  let speedTok :=
    match parseSpeedTok text with
    | some cap => String.mk cap ++ "x"
    | none => s.speedTok
  if now - s.lastProgressUpdate > 100 then
    if duration > 0 then
      ⟨duration, currentTime, speedTok, ratio1, now⟩
    else
      ⟨duration, currentTime, speedTok, Int.fract (ratio1 + 1/100), now⟩
  else ⟨duration, currentTime, speedTok, ratio1, s.lastProgressUpdate⟩

/-- Where a selected video URL is sent (`downloadXVideo` lines 1266-1340,
`tryFastVideoDownload` lines 515-569). -/
inductive Dispatch where
  | transcode (args : List String)
  | direct
  deriving Repr, DecidableEq

/-- The two ffmpeg invocation shapes (separate audio track vs single input
with the `aac_adtstoasc` bitstream filter). -/
def buildFfmpegArgs (videoUrl audioUrl outputPath : String) : List String :=
  if audioUrl ≠ "" ∧ audioUrl ≠ videoUrl then
    ["-i", videoUrl, "-i", audioUrl, "-c:v", "copy", "-c:a", "aac",
      "-map", "0:v:0", "-map", "1:a:0", "-f", "mp4", outputPath]
  else
    ["-i", videoUrl, "-c", "copy", "-bsf:a", "aac_adtstoasc", "-f", "mp4", outputPath]

/-- The dispatch decision: `if (videoUrl.endsWith(".m3u8"))` hand the URL to
ffmpeg, otherwise download the bytes directly. -/
def dispatchDownload (videoUrl audioUrl outputPath : String) : Dispatch :=
  if strEndsWith videoUrl ".m3u8" then
    .transcode (buildFfmpegArgs videoUrl audioUrl outputPath)
  else .direct

/-! ### Helper lemmas -/

theorem getD_mem (l : List String) (n : Nat) (h : n < l.length) : l.getD n "" ∈ l := by
  induction l generalizing n with
  | nil => simp at h
  | cons a t ih =>
    cases n with
    | zero => simp
    | succ k =>
      simp only [List.getD_cons_succ]
      exact List.mem_cons_of_mem _ (ih k (by simpa using h))

theorem mem_insertDesc (f : String → Nat) (x u : String) (l : List String) :
    u ∈ insertDesc f x l ↔ u = x ∨ u ∈ l := by
  induction l with
  | nil => simp [insertDesc]
  | cons y ys ih =>
    by_cases h : f y ≤ f x
    · simp [insertDesc, h]
    · simp [insertDesc, h, ih]
      tauto

theorem length_insertDesc (f : String → Nat) (x : String) (l : List String) :
    (insertDesc f x l).length = l.length + 1 := by
  induction l with
  | nil => simp [insertDesc]
  | cons y ys ih =>
    by_cases h : f y ≤ f x
    · simp [insertDesc, h]
    · simp [insertDesc, h, ih]

theorem pairwise_insertDesc (f : String → Nat) (x : String) (l : List String)
    (hl : l.Pairwise (fun a b => f b ≤ f a)) :
    (insertDesc f x l).Pairwise (fun a b => f b ≤ f a) := by
  induction l with
  | nil => simp [insertDesc]
  | cons y ys ih =>
    rcases List.pairwise_cons.mp hl with ⟨hy, hys⟩
    by_cases h : f y ≤ f x
    · simp only [insertDesc, if_pos h]
      refine List.pairwise_cons.mpr ⟨?_, hl⟩
      intro b hb
      rcases List.mem_cons.mp hb with rfl | hb
      · exact h
      · exact le_trans (hy b hb) h
    · simp only [insertDesc, if_neg h]
      refine List.pairwise_cons.mpr ⟨?_, ih hys⟩
      intro b hb
      rcases (mem_insertDesc f x b ys).mp hb with rfl | hb
      · exact le_of_not_le h
      · exact hy b hb

theorem mem_sortByScoreDesc (f : String → Nat) (u : String) (l : List String) :
    u ∈ sortByScoreDesc f l ↔ u ∈ l := by
  induction l with
  | nil => simp [sortByScoreDesc]
  | cons x xs ih =>
    simp [sortByScoreDesc, mem_insertDesc, ih]

theorem length_sortByScoreDesc (f : String → Nat) (l : List String) :
    (sortByScoreDesc f l).length = l.length := by
  induction l with
  | nil => rfl
  | cons x xs ih => simp [sortByScoreDesc, length_insertDesc, ih]

theorem pairwise_sortByScoreDesc (f : String → Nat) (l : List String) :
    (sortByScoreDesc f l).Pairwise (fun a b => f b ≤ f a) := by
  induction l with
  | nil => simp [sortByScoreDesc]
  | cons x xs ih => exact pairwise_insertDesc f x _ ih

theorem head_max_of_pairwise (f : String → Nat) (l : List String) (hne : l ≠ [])
    (hp : l.Pairwise (fun a b => f b ≤ f a)) :
    ∀ u ∈ l, f u ≤ f (l.getD 0 "") := by
  cases l with
  | nil => exact absurd rfl hne
  | cons a t =>
    rcases List.pairwise_cons.mp hp with ⟨ha, _⟩
    intro u hu
    rcases List.mem_cons.mp hu with rfl | hu
    · simp
    · simpa using ha u hu

theorem last_min_of_pairwise (f : String → Nat) (l : List String) (hne : l ≠ [])
    (hp : l.Pairwise (fun a b => f b ≤ f a)) :
    ∀ u ∈ l, f (l.getD (l.length - 1) "") ≤ f u := by
  induction l with
  | nil => exact absurd rfl hne
  | cons a t ih =>
    rcases List.pairwise_cons.mp hp with ⟨ha, ht⟩
    by_cases htn : t = []
    · subst htn
      intro u hu
      simp at hu
      simp [hu]
    · have hlen : 0 < t.length := List.length_pos.mpr htn
      have hlast : (a :: t).getD ((a :: t).length - 1) "" = t.getD (t.length - 1) "" := by
        have h1 : (a :: t).length - 1 = (t.length - 1) + 1 := by
          simp only [List.length_cons]
          omega
        rw [h1, List.getD_cons_succ]
      rw [hlast]
      intro u hu
      rcases List.mem_cons.mp hu with rfl | hu
      · exact ha _ (getD_mem t (t.length - 1) (by omega))
      · exact ih htn ht u hu

theorem selectFromSorted_mem (q : String) (l : List String) (hne : l ≠ []) :
    selectFromSorted q l ∈ l := by
  have hlen : 0 < l.length := List.length_pos.mpr hne
  unfold selectFromSorted
  split_ifs with h1 h2 h3 h4 <;>
    exact getD_mem l _ (by omega)

theorem selectFromSorted_singleton (q u : String) : selectFromSorted q [u] = u := by
  unfold selectFromSorted
  split_ifs with h1 h2 h3 h4 <;> simp_all

theorem segFilter_eq_nil (l : List String)
    (h : ∀ u ∈ l, strEndsWith u ".m4s" = true) : segFilter l = [] := by
  unfold segFilter
  rw [List.filter_eq_nil_iff]
  intro u hu
  simp [h u hu]

theorem mem_segFilter (l : List String) (u : String) :
    u ∈ segFilter l ↔ u ∈ l ∧ strEndsWith u ".m4s" = false := by
  unfold segFilter
  rw [List.mem_filter]
  simp

theorem mem_addUrl (l : List String) (u v : String) :
    v ∈ addUrl l u ↔ v ∈ l ∨ v = u := by
  unfold addUrl
  split_ifs with h
  · constructor
    · exact Or.inl
    · rintro (hv | rfl)
      · exact hv
      · exact h
  · simp

/-- Every direct-file insertion inside the variants walk is guarded by a
`.mp4` substring test. -/
theorem classifyVariantUrl_mp4 (m : MediaUrls) (w v : String)
    (h : v ∈ (classifyVariantUrl m w).mp4Files) :
    v ∈ m.mp4Files ∨ strIncludes v ".mp4" = true := by
  unfold classifyVariantUrl at h
  split_ifs at h with h1 h2
  · exact Or.inl h
  · rcases (mem_addUrl _ _ _).mp h with hv | rfl
    · exact Or.inl hv
    · exact Or.inr h2
  · exact Or.inl h

theorem scanVariantList_mp4 (vs : List Json) (m : MediaUrls) (v : String)
    (h : v ∈ (scanVariantList m vs).mp4Files) :
    v ∈ m.mp4Files ∨ strIncludes v ".mp4" = true := by
  induction vs generalizing m with
  | nil => exact Or.inl h
  | cons x rest ih =>
    unfold scanVariantList at h
    rcases ih _ h with hmem | hinc
    · match x with
      | .obj fs =>
        simp only at hmem
        cases hjf : jField fs "url" with
        | none => rw [hjf] at hmem; exact Or.inl hmem
        | some j =>
          match j with
          | .str w =>
            rw [hjf] at hmem
            exact classifyVariantUrl_mp4 m w v hmem
          | .null | .bool _ | .num _ | .arr _ | .obj _ =>
            rw [hjf] at hmem; exact Or.inl hmem
      | .null | .bool _ | .num _ | .str _ | .arr _ =>
        exact Or.inl hmem
    · exact Or.inr hinc

theorem scanVideoInfo_mp4 (data : Json) (m : MediaUrls) (v : String)
    (h : v ∈ (scanVideoInfo data m).mp4Files) :
    v ∈ m.mp4Files ∨ strIncludes v ".mp4" = true := by
  unfold scanVideoInfo at h
  match data with
  | .obj fs =>
    simp only at h
    cases h1 : jField fs "video_info" with
    | none => rw [h1] at h; exact Or.inl h
    | some j1 =>
      match j1 with
      | .obj vfs =>
        rw [h1] at h
        simp only at h
        cases h2 : jField vfs "variants" with
        | none => rw [h2] at h; exact Or.inl h
        | some j2 =>
          match j2 with
          | .arr vs =>
            rw [h2] at h
            exact scanVariantList_mp4 vs m v h
          | .null | .bool _ | .num _ | .str _ | .obj _ =>
            rw [h2] at h; exact Or.inl h
      | .null | .bool _ | .num _ | .str _ | .arr _ =>
        rw [h1] at h; exact Or.inl h
  | .null | .bool _ | .num _ | .str _ | .arr _ => exact Or.inl h

theorem scanMediaFold_mp4 (ms : List Json) (m : MediaUrls) (v : String)
    (h : v ∈ (ms.foldl (fun acc item => scanVideoInfo item acc) m).mp4Files) :
    v ∈ m.mp4Files ∨ strIncludes v ".mp4" = true := by
  induction ms generalizing m with
  | nil => exact Or.inl h
  | cons x rest ih =>
    simp only [List.foldl_cons] at h
    rcases ih _ h with hmem | hinc
    · exact scanVideoInfo_mp4 x m v hmem
    · exact Or.inr hinc

theorem scanExtEntities_mp4 (data : Json) (m : MediaUrls) (v : String)
    (h : v ∈ (scanExtEntities data m).mp4Files) :
    v ∈ m.mp4Files ∨ strIncludes v ".mp4" = true := by
  unfold scanExtEntities at h
  match data with
  | .obj fs =>
    simp only at h
    cases h1 : jField fs "extended_entities" with
    | none => rw [h1] at h; exact Or.inl h
    | some j1 =>
      match j1 with
      | .obj efs =>
        rw [h1] at h
        simp only at h
        cases h2 : jField efs "media" with
        | none => rw [h2] at h; exact Or.inl h
        | some j2 =>
          match j2 with
          | .arr ms =>
            rw [h2] at h
            exact scanMediaFold_mp4 ms m v h
          | .null | .bool _ | .num _ | .str _ | .obj _ =>
            rw [h2] at h; exact Or.inl h
      | .null | .bool _ | .num _ | .str _ | .arr _ =>
        rw [h1] at h; exact Or.inl h
  | .null | .bool _ | .num _ | .str _ | .arr _ => exact Or.inl h

theorem classifyStringProp_mp4 (m : MediaUrls) (w v : String)
    (h : v ∈ (classifyStringProp m w).mp4Files) :
    v ∈ m.mp4Files ∨ strIncludes v ".mp4" = true := by
  unfold classifyStringProp at h
  split_ifs at h with h1 h2 h3
  · rcases (mem_addUrl _ _ _).mp h with hv | rfl
    · exact Or.inl hv
    · exact Or.inr h2
  · exact Or.inl h
  · exact Or.inl h
  · exact Or.inl h

theorem scanStringValues_mp4 (l : List Json) (m : MediaUrls) (v : String)
    (h : v ∈ (scanStringValues m l).mp4Files) :
    v ∈ m.mp4Files ∨ strIncludes v ".mp4" = true := by
  induction l generalizing m with
  | nil => exact Or.inl h
  | cons x rest ih =>
    match x with
    | .str w =>
      unfold scanStringValues at h
      rcases ih _ h with hmem | hinc
      · exact classifyStringProp_mp4 m w v hmem
      · exact Or.inr hinc
    | .null | .bool _ | .num _ | .arr _ | .obj _ =>
      unfold scanStringValues at h
      exact ih _ h

/-- The recursive JSON deep-scan inserts a URL into the direct-media-file
set only when that URL contains the `.mp4` token. -/
theorem extractVideoUrls_mp4 (v : String) (data : Json) (m : MediaUrls)
    (h : v ∈ (extractVideoUrls data m).mp4Files) :
    v ∈ m.mp4Files ∨ strIncludes v ".mp4" = true := by
  refine extractVideoUrls.induct
    (fun d mm => v ∈ (extractVideoUrls d mm).mp4Files →
      v ∈ mm.mp4Files ∨ strIncludes v ".mp4" = true)
    (fun l mm => v ∈ (extractElemChildren l mm).mp4Files →
      v ∈ mm.mp4Files ∨ strIncludes v ".mp4" = true)
    (fun l mm => v ∈ (extractFieldChildren l mm).mp4Files →
      v ∈ mm.mp4Files ∨ strIncludes v ".mp4" = true)
    ?_ ?_ ?_ ?_ ?_ ?_ ?_ data m h
  · intro mm fields m1 m2 m3 ih hmem
    simp only [extractVideoUrls.eq_def] at hmem
    rcases ih hmem with hmem1 | hinc
    · rcases scanStringValues_mp4 _ _ v hmem1 with hmem2 | hinc2
      · rcases scanExtEntities_mp4 _ _ v hmem2 with hmem3 | hinc3
        · exact scanVideoInfo_mp4 _ _ v hmem3
        · exact Or.inr hinc3
      · exact Or.inr hinc2
    · exact Or.inr hinc
  · intro mm elems m3 ih hmem
    simp only [extractVideoUrls.eq_def] at hmem
    rcases ih hmem with hmem1 | hinc
    · exact scanStringValues_mp4 _ _ v hmem1
    · exact Or.inr hinc
  · intro t mm hobj harr hmem
    cases t with
    | null => simp only [extractVideoUrls.eq_def] at hmem; exact Or.inl hmem
    | bool b => simp only [extractVideoUrls.eq_def] at hmem; exact Or.inl hmem
    | num q => simp only [extractVideoUrls.eq_def] at hmem; exact Or.inl hmem
    | str s => simp only [extractVideoUrls.eq_def] at hmem; exact Or.inl hmem
    | arr elems => exact absurd rfl (harr elems)
    | obj fields => exact absurd rfl (hobj fields)
  · intro mm hmem
    rw [extractElemChildren] at hmem
    exact Or.inl hmem
  · intro mm x rest ih1 ih2 hmem
    rw [extractElemChildren] at hmem
    rcases ih2 hmem with hmem1 | hinc
    · exact ih1 hmem1
    · exact Or.inr hinc
  · intro mm hmem
    rw [extractFieldChildren] at hmem
    exact Or.inl hmem
  · intro mm k j rest ih1 ih2 hmem
    rw [extractFieldChildren] at hmem
    rcases ih2 hmem with hmem1 | hinc
    · exact ih1 hmem1
    · exact Or.inr hinc

/-- The final byte count of the receive loop is the sum of the chunk sizes. -/
theorem runChunks_bytes (totalBytes startTime : Nat) (s : DlState)
    (chunks : List (Nat × Nat)) :
    (runChunks totalBytes startTime s chunks).1.bytesReceived =
      s.bytesReceived + (chunks.map Prod.fst).sum := by
  induction chunks generalizing s with
  | nil => simp [runChunks]
  | cons c rest ih =>
    simp only [runChunks, dlStep, List.map_cons, List.sum_cons]
    rw [ih]
    simp only []
    omega

/-- With an unknown total size every progress update of the receive loop is
the indeterminate (bytes-shown) form. -/
theorem runChunks_indeterminate (startTime : Nat) (s : DlState)
    (chunks : List (Nat × Nat)) :
    ∀ u ∈ (runChunks 0 startTime s chunks).2, u.indeterminate = true := by
  induction chunks generalizing s with
  | nil => simp [runChunks]
  | cons c rest ih =>
    simp only [runChunks]
    intro u hu
    rcases List.mem_cons.mp hu with rfl | hu
    · simp [dlStep]
    · exact ih _ u hu

theorem selectFromSorted_highest (l : List String) :
    selectFromSorted "highest" l = l.getD 0 "" := by
  unfold selectFromSorted
  simp

theorem selectFromSorted_lowest (l : List String) (h : l ≠ []) :
    selectFromSorted "lowest" l = l.getD (l.length - 1) "" := by
  have hlen : 0 < l.length := List.length_pos.mpr h
  unfold selectFromSorted
  simp [hlen]

theorem selectFromSorted_medium (l : List String) :
    selectFromSorted "medium" l =
      if 2 < l.length then l.getD (l.length / 2) "" else l.getD 0 "" := by
  unfold selectFromSorted
  simp

theorem selectFromSorted_high (l : List String) :
    selectFromSorted "high" l =
      if 1 < l.length then l.getD 1 "" else l.getD 0 "" := by
  unfold selectFromSorted
  by_cases h : 1 < l.length
  · have hmin : min 1 (l.length - 1) = 1 := by omega
    simp [h, hmin]
  · simp [h]

theorem selectFromSorted_low (l : List String) :
    selectFromSorted "low" l =
      if 1 < l.length then l.getD (l.length - 2) "" else l.getD 0 "" := by
  unfold selectFromSorted
  by_cases h : 1 < l.length
  · simp [h]
  · simp [h]

/-! ### The claims -/

/-- C1 (amended): over the descending-sorted surviving candidates, tier
`high` selects index 1 (falling back to 0 when fewer than 2 entries) and
tier `low` the second-from-last index (falling back to the last); but tier
`medium` selects the middle index `floor(n/2)` only when the list has at
least 3 entries — with 2 entries the source's `length > 2` guard fails and
selection degrades to index 0, not index `floor(2/2) = 1`.  Scenario B
(three candidates, tier `medium`) yields `"a-640x360.mp4"` as stated. -/
theorem c1_tier_indexing (l : List String) :
    (pickMp4 "medium" l =
      (if 2 < l.length then (sortByScoreDesc getQualityScore l).getD (l.length / 2) ""
        else (sortByScoreDesc getQualityScore l).getD 0 "")) ∧
    (pickMp4 "high" l =
      (if 1 < l.length then (sortByScoreDesc getQualityScore l).getD 1 ""
        else (sortByScoreDesc getQualityScore l).getD 0 "")) ∧
    (pickMp4 "low" l =
      (if 1 < l.length then (sortByScoreDesc getQualityScore l).getD (l.length - 2) ""
        else (sortByScoreDesc getQualityScore l).getD (l.length - 1) "")) ∧
    pickMp4 "medium" ["a-640x360.mp4", "a-1280x720.mp4", "a-320x180.mp4"] =
      "a-640x360.mp4" := by
  have hs := length_sortByScoreDesc getQualityScore l
  refine ⟨?_, ?_, ?_, by decide⟩
  · rw [pickMp4, selectFromSorted_medium, hs]
  · rw [pickMp4, selectFromSorted_high, hs]
  · rw [pickMp4, selectFromSorted_low, hs]
    by_cases h : 1 < l.length
    · simp [h]
    · have h0 : l.length - 1 = 0 := by omega
      simp [h, h0]

/-- C1 counterexample: a two-element descending-sorted surviving candidate
list on which tier `medium` returns index 0, not the claimed
`floor(n/2) = 1`. -/
theorem c1_counterexample :
    sortByScoreDesc getQualityScore ["a-1280x720.mp4", "a-640x360.mp4"] =
      ["a-1280x720.mp4", "a-640x360.mp4"] ∧
    pickMp4 "medium" ["a-1280x720.mp4", "a-640x360.mp4"] ≠
      (["a-1280x720.mp4", "a-640x360.mp4"].getD
        (["a-1280x720.mp4", "a-640x360.mp4"].length / 2) "") := by
  exact ⟨by decide, by decide⟩

/-- C6: for any fixed surviving candidate set, tier `highest` returns a URL
of maximal quality score, tier `lowest` one of minimal quality score, and on
a singleton set every tier returns the single URL. -/
theorem c6_extreme_tiers (l : List String) (h : l ≠ []) :
    (pickMp4 "highest" l ∈ l ∧
      ∀ u ∈ l, getQualityScore u ≤ getQualityScore (pickMp4 "highest" l)) ∧
    (pickMp4 "lowest" l ∈ l ∧
      ∀ u ∈ l, getQualityScore (pickMp4 "lowest" l) ≤ getQualityScore u) ∧
    (∀ q u, pickMp4 q [u] = u) := by
  have hs : (sortByScoreDesc getQualityScore l).length = l.length :=
    length_sortByScoreDesc getQualityScore l
  have hsne : sortByScoreDesc getQualityScore l ≠ [] := by
    intro hnil
    rw [hnil] at hs
    exact h (List.length_eq_zero.mp hs.symm)
  have hslen : 0 < (sortByScoreDesc getQualityScore l).length :=
    List.length_pos.mpr hsne
  have hpair := pairwise_sortByScoreDesc getQualityScore l
  refine ⟨⟨?_, ?_⟩, ⟨?_, ?_⟩, ?_⟩
  · rw [pickMp4, selectFromSorted_highest]
    exact (mem_sortByScoreDesc _ _ _).mp (getD_mem _ 0 hslen)
  · intro u hu
    rw [pickMp4, selectFromSorted_highest]
    exact head_max_of_pairwise getQualityScore _ hsne hpair u
      ((mem_sortByScoreDesc _ _ _).mpr hu)
  · rw [pickMp4, selectFromSorted_lowest _ hsne]
    exact (mem_sortByScoreDesc _ _ _).mp (getD_mem _ _ (by omega))
  · intro u hu
    rw [pickMp4, selectFromSorted_lowest _ hsne]
    exact last_min_of_pairwise getQualityScore _ hsne hpair u
      ((mem_sortByScoreDesc _ _ _).mpr hu)
  · intro q u
    have h1 : sortByScoreDesc getQualityScore [u] = [u] := rfl
    rw [pickMp4, h1, selectFromSorted_singleton]

/-- Witness for C6 at a concrete two-candidate set. -/
theorem c6_extreme_tiers_witness :
    (["a-640x360.mp4", "a-1280x720.mp4"] : List String) ≠ [] ∧
    pickMp4 "highest" ["a-640x360.mp4", "a-1280x720.mp4"] ∈
      (["a-640x360.mp4", "a-1280x720.mp4"] : List String) := by
  have h := c6_extreme_tiers ["a-640x360.mp4", "a-1280x720.mp4"] (by decide)
  exact ⟨by decide, h.1.1⟩

/-- C2: when every direct-media-file candidate carries the `.m4s` segment
suffix, both selection routines ignore the direct set — the selected video
URL is empty or drawn from the tagged-video/manifest sets — and on the
scenario-C state (direct `{seg1.m4s, seg2.m4s}`, manifest `{stream.m3u8}`)
both return `"stream.m3u8"`, for every requested tier. -/
theorem c2_segmented_fallthrough (m : MediaUrls) (q : String)
    (h : ∀ u ∈ m.mp4Files, strEndsWith u ".m4s" = true) :
    ((selectFull q m).1 = "" ∨ (selectFull q m).1 ∈ m.videoUrls ∨
      (selectFull q m).1 ∈ m.m3u8Playlists) ∧
    ((selectFast q m).1 = "" ∨ (selectFast q m).1 ∈ m.videoUrls ∨
      (selectFast q m).1 ∈ m.m3u8Playlists) ∧
    (selectFull q ⟨["stream.m3u8"], ["seg1.m4s", "seg2.m4s"], [], []⟩).1 =
      "stream.m3u8" ∧
    (selectFast q ⟨["stream.m3u8"], ["seg1.m4s", "seg2.m4s"], [], []⟩).1 =
      "stream.m3u8" := by
  have hfil : segFilter m.mp4Files = [] := segFilter_eq_nil _ h
  have hconc : segFilter ["seg1.m4s", "seg2.m4s"] = [] := by decide
  refine ⟨?_, ?_, by simp [selectFull, hconc], by simp [selectFast, hconc]⟩
  · by_cases h1 : m.mp4Files.length > 0
    · by_cases h2 : m.m3u8Playlists.length > 0
      · right; right
        have hv : (selectFull q m).1 = m.m3u8Playlists.getD 0 "" := by
          simp [selectFull, hfil, h1, h2]
        rw [hv]
        exact getD_mem _ 0 h2
      · left
        simp [selectFull, hfil, h1, h2]
    · by_cases h3 : m.videoUrls.length > 0
      · right; left
        have hv : (selectFull q m).1 = m.videoUrls.getD 0 "" := by
          simp [selectFull, h1, h3]
        rw [hv]
        exact getD_mem _ 0 h3
      · by_cases h2 : m.m3u8Playlists.length > 0
        · right; right
          have hv : (selectFull q m).1 = m.m3u8Playlists.getD 0 "" := by
            simp [selectFull, h1, h3, h2]
          rw [hv]
          exact getD_mem _ 0 h2
        · left
          simp [selectFull, h1, h3, h2]
  · by_cases h3 : m.videoUrls.length > 0
    · right; left
      have hv : (selectFast q m).1 = m.videoUrls.getD 0 "" := by
        simp [selectFast, hfil, h3]
      rw [hv]
      exact getD_mem _ 0 h3
    · by_cases h2 : m.m3u8Playlists.length > 0
      · right; right
        have hv : (selectFast q m).1 = m.m3u8Playlists.getD 0 "" := by
          simp [selectFast, hfil, h3, h2]
        rw [hv]
        exact getD_mem _ 0 h2
      · left
        simp [selectFast, hfil, h3, h2]

/-- Witness for C2 on the scenario-C state with tier `medium`. -/
theorem c2_segmented_fallthrough_witness :
    (∀ u ∈ (⟨["stream.m3u8"], ["seg1.m4s", "seg2.m4s"], [], []⟩ : MediaUrls).mp4Files,
      strEndsWith u ".m4s" = true) ∧
    (selectFull "medium" ⟨["stream.m3u8"], ["seg1.m4s", "seg2.m4s"], [], []⟩).1 =
      "stream.m3u8" := by
  have h := c2_segmented_fallthrough ⟨["stream.m3u8"], ["seg1.m4s", "seg2.m4s"], [], []⟩
    "medium" (by decide)
  exact ⟨by decide, h.2.2.1⟩

/-- C3 counterexample: a state with no surviving direct candidate (the
direct set holds only `a.m4s`) and a non-empty tagged-video set, on which
the full-session selection returns the first manifest URL `p.m3u8` — which
is not in the tagged-video set — instead of preferring the tagged-video URL
`v.m3u8`. -/
theorem c3_counterexample :
    (∀ u ∈ (⟨["p.m3u8", "v.m3u8"], ["a.m4s"], ["v.m3u8"], []⟩ : MediaUrls).mp4Files,
      strEndsWith u ".m4s" = true) ∧
    (⟨["p.m3u8", "v.m3u8"], ["a.m4s"], ["v.m3u8"], []⟩ : MediaUrls).videoUrls ≠ [] ∧
    (selectFull "highest" ⟨["p.m3u8", "v.m3u8"], ["a.m4s"], ["v.m3u8"], []⟩).1 =
      "p.m3u8" ∧
    "p.m3u8" ∉ (⟨["p.m3u8", "v.m3u8"], ["a.m4s"], ["v.m3u8"], []⟩ : MediaUrls).videoUrls := by
  exact ⟨by decide, by decide, by decide, by decide⟩

/-- C3 (amended): with an EMPTY direct set, both routines prefer the first
tagged-video URL and fall back to the first manifest URL only when the
tagged-video set is empty; the full-session routine pairs the first
tagged-audio URL whenever one exists (the fast routine pairs it only when
its manifest branch runs).  But with a non-empty, fully segmented direct
set, the full-session routine falls back directly to the first manifest URL
without consulting the tagged-video set — only the fast routine still
prefers the tagged-video URL there. -/
theorem c3_manifest_branch (m : MediaUrls) (q : String) :
    (m.mp4Files = [] → m.videoUrls ≠ [] → (selectFull q m).1 = m.videoUrls.getD 0 "") ∧
    (m.mp4Files = [] → m.videoUrls = [] → m.m3u8Playlists ≠ [] →
      (selectFull q m).1 = m.m3u8Playlists.getD 0 "") ∧
    (m.audioUrls ≠ [] → (selectFull q m).2 = m.audioUrls.getD 0 "") ∧
    ((∀ u ∈ m.mp4Files, strEndsWith u ".m4s" = true) → m.mp4Files ≠ [] →
      m.m3u8Playlists ≠ [] → (selectFull q m).1 = m.m3u8Playlists.getD 0 "") ∧
    ((∀ u ∈ m.mp4Files, strEndsWith u ".m4s" = true) → m.videoUrls ≠ [] →
      (selectFast q m).1 = m.videoUrls.getD 0 "") ∧
    ((∀ u ∈ m.mp4Files, strEndsWith u ".m4s" = true) → m.videoUrls = [] →
      m.m3u8Playlists ≠ [] → (selectFast q m).1 = m.m3u8Playlists.getD 0 "") ∧
    ((∀ u ∈ m.mp4Files, strEndsWith u ".m4s" = true) →
      (m.videoUrls ≠ [] ∨ m.m3u8Playlists ≠ []) → m.audioUrls ≠ [] →
      (selectFast q m).2 = m.audioUrls.getD 0 "") := by
  refine ⟨?_, ?_, ?_, ?_, ?_, ?_, ?_⟩
  · intro h1 h2
    have hv : 0 < m.videoUrls.length := List.length_pos.mpr h2
    simp [selectFull, h1, hv]
  · intro h1 h2 h3
    have hm : 0 < m.m3u8Playlists.length := List.length_pos.mpr h3
    simp [selectFull, h1, h2, hm]
  · intro h1
    have ha : 0 < m.audioUrls.length := List.length_pos.mpr h1
    simp [selectFull, ha]
  · intro hseg h1 h3
    have hfil : segFilter m.mp4Files = [] := segFilter_eq_nil _ hseg
    have h1' : 0 < m.mp4Files.length := List.length_pos.mpr h1
    have hm : 0 < m.m3u8Playlists.length := List.length_pos.mpr h3
    simp [selectFull, hfil, h1', hm]
  · intro hseg h2
    have hfil : segFilter m.mp4Files = [] := segFilter_eq_nil _ hseg
    have hv : 0 < m.videoUrls.length := List.length_pos.mpr h2
    simp [selectFast, hfil, hv]
  · intro hseg h2 h3
    have hfil : segFilter m.mp4Files = [] := segFilter_eq_nil _ hseg
    have hm : 0 < m.m3u8Playlists.length := List.length_pos.mpr h3
    simp [selectFast, hfil, h2, hm]
  · intro hseg hor h1
    have hfil : segFilter m.mp4Files = [] := segFilter_eq_nil _ hseg
    have ha : 0 < m.audioUrls.length := List.length_pos.mpr h1
    rcases hor with h2 | h3
    · have hv : 0 < m.videoUrls.length := List.length_pos.mpr h2
      simp [selectFast, hfil, hv, ha]
    · have hm : 0 < m.m3u8Playlists.length := List.length_pos.mpr h3
      by_cases hv : 0 < m.videoUrls.length
      · simp [selectFast, hfil, hv, ha]
      · simp [selectFast, hfil, hv, hm, ha]

/-- Witness for C3 (amended): empty direct set, tagged-video URL preferred
and the tagged-audio URL paired. -/
theorem c3_manifest_branch_witness :
    (selectFull "highest" ⟨["p.m3u8"], [], ["v.m3u8"], ["a.m3u8"]⟩).1 = "v.m3u8" ∧
    (selectFull "highest" ⟨["p.m3u8"], [], ["v.m3u8"], ["a.m3u8"]⟩).2 = "a.m3u8" := by
  have h := c3_manifest_branch ⟨["p.m3u8"], [], ["v.m3u8"], ["a.m3u8"]⟩ "highest"
  exact ⟨by rw [h.1 rfl (by decide)]; decide, by rw [h.2.2.1 (by decide)]; decide⟩

/-- C5 counterexample: the `response` handler records a URL whose path ends
in `.m4s` into the direct-media-file set of the registry when the response's
content type is `video/mp4` (as segment responses are typed), so the claimed
registry invariant fails at the record operation itself. -/
theorem c5_counterexample :
    strEndsWith "https://video.twimg.com/seg1.m4s" ".m4s" = true ∧
    "https://video.twimg.com/seg1.m4s" ∈
      (handleResponse emptyMedia "https://video.twimg.com/seg1.m4s" "video/mp4"
        none).mp4Files := by
  exact ⟨by decide, by decide⟩

/-- C5 (amended): the invariant holds one stage later — the selection-time
`.m4s` filter removes every segment-suffixed URL, so no URL of the surviving
candidate list, and in particular no selected direct-download URL, ends in
`.m4s`. -/
theorem c5_segment_exclusion (l : List String) (q : String)
    (h : segFilter l ≠ []) :
    (∀ u ∈ segFilter l, strEndsWith u ".m4s" = false) ∧
    pickMp4 q (segFilter l) ∈ segFilter l ∧
    strEndsWith (pickMp4 q (segFilter l)) ".m4s" = false := by
  have hmem : ∀ u ∈ segFilter l, strEndsWith u ".m4s" = false := by
    intro u hu
    exact ((mem_segFilter l u).mp hu).2
  have hpick : pickMp4 q (segFilter l) ∈ segFilter l := by
    rw [pickMp4]
    have hne : sortByScoreDesc getQualityScore (segFilter l) ≠ [] := by
      intro hnil
      have hlen := length_sortByScoreDesc getQualityScore (segFilter l)
      rw [hnil] at hlen
      exact h (List.length_eq_zero.mp hlen.symm)
    exact (mem_sortByScoreDesc _ _ _).mp (selectFromSorted_mem q _ hne)
  exact ⟨hmem, hpick, hmem _ hpick⟩

/-- Witness for C5 (amended) on a mixed segment/file candidate list. -/
theorem c5_segment_exclusion_witness :
    segFilter ["https://video.twimg.com/seg1.m4s", "vid.mp4"] ≠ [] ∧
    strEndsWith
      (pickMp4 "highest" (segFilter ["https://video.twimg.com/seg1.m4s", "vid.mp4"]))
      ".m4s" = false := by
  have h := c5_segment_exclusion ["https://video.twimg.com/seg1.m4s", "vid.mp4"]
    "highest" (by decide)
  exact ⟨by decide, h.2.2⟩

/-- C4 counterexample: the URL `https://video.twimg.com/vid.m3u8?ext=.mp4`
contains the manifest extension; the response handler, observing it with the
manifest content type, files it (only) in the manifest set — but when the
recursive JSON deep-scan observes the same URL as a string property, its
mp4-first test files it in the direct-media-file set. -/
theorem c4_counterexample :
    strIncludes "https://video.twimg.com/vid.m3u8?ext=.mp4" ".m3u8" = true ∧
    (handleResponse emptyMedia "https://video.twimg.com/vid.m3u8?ext=.mp4"
      "application/x-mpegURL" none).mp4Files = [] ∧
    "https://video.twimg.com/vid.m3u8?ext=.mp4" ∈
      (handleResponse emptyMedia "https://video.twimg.com/vid.m3u8?ext=.mp4"
        "application/x-mpegURL" none).m3u8Playlists ∧
    "https://video.twimg.com/vid.m3u8?ext=.mp4" ∈
      (extractVideoUrls
        (Json.obj [("variant", Json.str "https://video.twimg.com/vid.m3u8?ext=.mp4")])
        (handleResponse emptyMedia "https://video.twimg.com/vid.m3u8?ext=.mp4"
          "application/x-mpegURL" none)).mp4Files := by
  exact ⟨by decide, by decide, by decide, by decide⟩

/-- C4 (amended): a URL observed by the response handler with a manifest
content type (one containing the manifest token and neither the JSON nor the
video token, and non-empty) goes into the manifest set and leaves the
direct-media-file set untouched; the deep-scan adds a URL to the direct set
only when it contains `.mp4`, so a manifest URL without that token is safe
there too — but a URL containing both tokens is filed as a direct file by
the deep-scan's string pass. -/
theorem c4_manifest_classification :
    (∀ (m : MediaUrls) (url ct : String) (body : Option Json),
      strIncludes ct "application/x-mpegURL" = true →
      strIncludes ct "application/json" = false →
      strIncludes ct "video" = false → ct ≠ "" →
      url ∈ (handleResponse m url ct body).m3u8Playlists ∧
        (handleResponse m url ct body).mp4Files = m.mp4Files) ∧
    (∀ (data : Json) (m : MediaUrls) (u : String),
      strIncludes u ".mp4" = false → u ∈ (extractVideoUrls data m).mp4Files →
        u ∈ m.mp4Files) := by
  constructor
  · intro m url ct body hct hjson hvid hne
    have hbeq : (ct == "") = false := by
      simpa using hne
    unfold handleResponse
    simp only [hct, hjson, hvid, hbeq, Bool.or_true, Bool.or_false, Bool.false_or,
      Bool.and_false, Bool.or_self, if_true, if_false, ite_false]
    split_ifs <;>
      simp_all [mem_addUrl]
  · intro data m u hmp4 hmem
    rcases extractVideoUrls_mp4 u data m hmem with h | h
    · exact h
    · rw [hmp4] at h
      exact absurd h (by simp)

/-- Witness for C4 (amended) at a concrete manifest observation. -/
theorem c4_manifest_classification_witness :
    "https://video.twimg.com/pl.m3u8" ∈
      (handleResponse emptyMedia "https://video.twimg.com/pl.m3u8"
        "application/x-mpegURL" none).m3u8Playlists ∧
    (handleResponse emptyMedia "https://video.twimg.com/pl.m3u8"
      "application/x-mpegURL" none).mp4Files = [] := by
  have h := c4_manifest_classification.1 emptyMedia "https://video.twimg.com/pl.m3u8"
    "application/x-mpegURL" none (by decide) (by decide) (by decide) (by decide)
  exact ⟨h.1, h.2⟩

/-- C7 counterexample: a loop state in which the rolling 500 ms speed sample
(500/3 bytes per second) differs from the cumulative average (1000 bytes per
second); the reported ETA is 1 second — remaining bytes over the CUMULATIVE
average — not the 6 seconds the rolling throughput would give. -/
theorem c7_counterexample :
    (dlStep 3000 0 ⟨1900, 1400, 1900, 0⟩ 100 2000).2.etaSecs = some 1 ∧
    (dlStep 3000 0 ⟨1900, 1400, 1900, 0⟩ 100 2000).2.speedBps = 500 / 3 ∧
    ((3000 : ℚ) - 2000) / ((dlStep 3000 0 ⟨1900, 1400, 1900, 0⟩ 100 2000).2.speedBps) = 6 ∧
    (1 : ℚ) ≠ 6 := by
  refine ⟨?_, ?_, ?_, by norm_num⟩ <;>
    norm_num [dlStep, calculateSpeedBps]

/-- C7 (amended): the ETA attached to a progress update is the remaining
byte count divided by the cumulative average throughput since transfer start
(`bytesReceived / elapsedSeconds`) — the rolling recent-slice sample only
drives the displayed speed — and the ETA is computed only once the elapsed
time exceeds one second, reported indeterminate before that. -/
theorem c7_eta_from_cumulative (totalBytes startTime : Nat) (s : DlState) (len now : Nat) :
    (totalBytes > 0 → s.bytesReceived + len > 0 →
      ((now - startTime : Nat) : ℚ) / 1000 > 1 →
      (dlStep totalBytes startTime s len now).2.etaSecs =
        some (((totalBytes : ℚ) - ((s.bytesReceived + len : Nat) : ℚ)) /
          (((s.bytesReceived + len : Nat) : ℚ) / (((now - startTime : Nat) : ℚ) / 1000)))) ∧
    (((now - startTime : Nat) : ℚ) / 1000 ≤ 1 →
      (dlStep totalBytes startTime s len now).2.etaSecs = none) := by
  constructor
  · intro h1 h2 h3
    have hrec : (0 : ℚ) < ((s.bytesReceived + len : Nat) : ℚ) := by exact_mod_cast h2
    have hel : (0 : ℚ) < ((now - startTime : Nat) : ℚ) / 1000 := lt_trans one_pos h3
    have hbps : (0 : ℚ) <
        ((s.bytesReceived + len : Nat) : ℚ) / (((now - startTime : Nat) : ℚ) / 1000) :=
      div_pos hrec hel
    simp [dlStep, h1, h2, h3, hbps]
    push_cast at hbps ⊢
    exact hbps
  · intro h3
    have hno : ¬ (totalBytes > 0 ∧ s.bytesReceived + len > 0 ∧
        ((now - startTime : Nat) : ℚ) / 1000 > 1) := by
      rintro ⟨-, -, hgt⟩
      exact absurd hgt (not_lt.mpr h3)
    simp only [dlStep, if_neg hno]
    split_ifs <;> rfl

/-- Witness for C7 (amended) at the counterexample's state. -/
theorem c7_eta_from_cumulative_witness :
    (dlStep 3000 0 ⟨1900, 1400, 1900, 0⟩ 100 2000).2.etaSecs =
      some (((3000 : ℚ) - ((1900 + 100 : Nat) : ℚ)) /
        (((1900 + 100 : Nat) : ℚ) / (((2000 - 0 : Nat) : ℚ) / 1000))) := by
  exact (c7_eta_from_cumulative 3000 0 ⟨1900, 1400, 1900, 0⟩ 100 2000).1
    (by norm_num) (by norm_num) (by norm_num)

/-- C8 counterexample: the HEAD probe fails (`none`) yet the GET response
carries a content length, so the source recovers a total size from the GET
and the progress updates are percentage-mode, not indeterminate — refuting
"indeterminate mode throughout" as a consequence of HEAD failure alone. -/
theorem c8_counterexample :
    downloadFileModel none ⟨true, some 1000, some [(500, 2000)]⟩ 0 =
      .ok (500, [⟨false, 1/2, 250, some 2⟩]) ∧
    ¬ (∀ u ∈ [(⟨false, 1/2, 250, some 2⟩ : ProgressUpd)], u.indeterminate = true) := by
  refine ⟨?_, by simp⟩
  norm_num [downloadFileModel, runChunks, dlStep, calculateSpeedBps]

/-- C8 (amended): the download fails with a transfer error exactly when the
GET response status is not ok or the body is null; a failed HEAD probe is
non-fatal — and when the GET response also lacks a content length, the
transfer completes, reports the summed chunk bytes, and every progress
update is the indeterminate (bytes-shown) form. -/
theorem c8_transfer_errors (head : Option HeadResp) (get : GetResp) (t0 : Nat) :
    ((∃ e, downloadFileModel head get t0 = .error e) ↔
      get.ok = false ∨ get.body = none) ∧
    (∀ chunks, head = none → get.ok = true → get.contentLength = none →
      get.body = some chunks →
      ∃ upds, downloadFileModel head get t0 = .ok ((chunks.map Prod.fst).sum, upds) ∧
        ∀ u ∈ upds, u.indeterminate = true) := by
  constructor
  · constructor
    · rintro ⟨e, he⟩
      unfold downloadFileModel at he
      by_cases hok : get.ok = false
      · exact Or.inl hok
      · rw [if_neg hok] at he
        cases hbody : get.body with
        | none => exact Or.inr rfl
        | some chunks =>
          rw [hbody] at he
          simp at he
    · intro h
      unfold downloadFileModel
      rcases h with hok | hbody
      · exact ⟨.httpStatus, by rw [if_pos hok]⟩
      · by_cases hok : get.ok = false
        · exact ⟨.httpStatus, by rw [if_pos hok]⟩
        · exact ⟨.noBody, by rw [if_neg hok, hbody]⟩
  · intro chunks hhead hok hcl hbody
    refine ⟨(runChunks 0 t0 ⟨0, t0, 0, 0⟩ chunks).2, ?_, ?_⟩
    · unfold downloadFileModel
      rw [hhead, hok, hcl, hbody]
      simp only [Option.getD_none]
      have hbytes := runChunks_bytes 0 t0 ⟨0, t0, 0, 0⟩ chunks
      simp only [if_neg (by simp : ¬ (true = false))]
      simp [hbytes]
    · exact runChunks_indeterminate t0 _ chunks

/-- Witness for C8 on a one-chunk transfer with no size information. -/
theorem c8_transfer_errors_witness :
    ∃ upds, downloadFileModel none ⟨true, none, some [(500, 2000)]⟩ 0 =
      .ok (500, upds) ∧ ∀ u ∈ upds, u.indeterminate = true := by
  have h := (c8_transfer_errors none ⟨true, none, some [(500, 2000)]⟩ 0).2
    [(500, 2000)] rfl rfl rfl rfl
  simpa using h

/-- C9 counterexample: two diagnostic reads whose `time=` tokens regress
move the recorded position backwards (10 seconds, then 5) — the parser
applies no forward-only clamp. -/
theorem c9_counterexample :
    (ffStep (ffInit 0) "time=00:00:10.00" 50).currentTime = 10 ∧
    (ffStep (ffStep (ffInit 0) "time=00:00:10.00" 50)
      "time=00:00:05.00" 100).currentTime = 5 ∧
    ((5 : ℚ) < 10) := by
  have h10 : parseTimeSecs "time=00:00:10.00" = some 10 := by
    have ht : parseTimeTok "time=00:00:10.00" = some ⟨0, 0, 10, 0, 2⟩ := by decide
    rw [parseTimeSecs, ht]
    norm_num [Option.map_some', clockSecs]
  have h5 : parseTimeSecs "time=00:00:05.00" = some 5 := by
    have ht : parseTimeTok "time=00:00:05.00" = some ⟨0, 0, 5, 0, 2⟩ := by decide
    rw [parseTimeSecs, ht]
    norm_num [Option.map_some', clockSecs]
  refine ⟨?_, ?_, by norm_num⟩
  · simp only [ffStep, h10, Option.getD_some]
    split_ifs <;> rfl
  · generalize ffStep (ffInit 0) "time=00:00:10.00" 50 = s1
    simp only [ffStep, h5, Option.getD_some]
    split_ifs <;> rfl

/-- C9 (amended): the recorded position is simply the last parsed `time=`
token; it is non-decreasing exactly when the token stream is — whenever a
read parses a token at least as large as the current position, the position
is overwritten with it and does not move backwards. -/
theorem c9_position_tracks_tokens (s : FfState) (text : String) (now : Nat) (t : ℚ)
    (hp : parseTimeSecs text = some t) (hmono : s.currentTime ≤ t) :
    (ffStep s text now).currentTime = t ∧
    s.currentTime ≤ (ffStep s text now).currentTime := by
  have hcur : (ffStep s text now).currentTime = t := by
    simp only [ffStep, hp, Option.getD_some]
    split_ifs <;> rfl
  exact ⟨hcur, hcur ▸ hmono⟩

/-- Witness for C9 (amended) on a parsed 10-second token. -/
theorem c9_position_tracks_tokens_witness :
    (ffStep (ffInit 0) "time=00:00:10.00" 50).currentTime = 10 ∧
    (ffInit 0).currentTime ≤ (ffStep (ffInit 0) "time=00:00:10.00" 50).currentTime := by
  have h10 : parseTimeSecs "time=00:00:10.00" = some 10 := by
    have ht : parseTimeTok "time=00:00:10.00" = some ⟨0, 0, 10, 0, 2⟩ := by decide
    rw [parseTimeSecs, ht]
    norm_num [Option.map_some', clockSecs]
  exact c9_position_tracks_tokens (ffInit 0) "time=00:00:10.00" 50 10 h10
    (by norm_num [ffInit])

/-- C10: the transcode-vs-direct dispatch tests the literal suffix
`.m3u8`, so a manifest URL that contains `.m3u8` but carries a trailing
query string or fragment is sent to the direct byte download, not the
transcoder. -/
theorem c10_dispatch_literal_suffix (v a o : String)
    (h1 : strIncludes v ".m3u8" = true) (h2 : strEndsWith v ".m3u8" = false) :
    dispatchDownload v a o = .direct ∧
    (∀ w, dispatchDownload w a o = .direct ↔ strEndsWith w ".m3u8" = false) ∧
    dispatchDownload "https://video.twimg.com/amplify_video/pl/playlist.m3u8?tag=12" a o =
      .direct := by
  refine ⟨?_, ?_, ?_⟩
  · simp [dispatchDownload, h2]
  · intro w
    unfold dispatchDownload
    by_cases hw : strEndsWith w ".m3u8"
    · simp [hw]
    · simp [hw]
  · have hq : strEndsWith
        "https://video.twimg.com/amplify_video/pl/playlist.m3u8?tag=12" ".m3u8" = false := by
      decide
    simp [dispatchDownload, hq]

/-- Witness for C10 on a tagged manifest URL. -/
theorem c10_dispatch_literal_suffix_witness :
    dispatchDownload "https://video.twimg.com/pl/playlist.m3u8?tag=12" "" "out.mp4" =
      .direct := by
  exact (c10_dispatch_literal_suffix "https://video.twimg.com/pl/playlist.m3u8?tag=12"
    "" "out.mp4" (by decide) (by decide)).1

end XDl
